import Mathlib

/-!
# Verification of the `mlft` backtest engine

Shallow embedding of the core of `src/mlft/strategy.py` and
`src/mlft/backtest.py`: the order/trade/position data model, the
weighted-average-cost position ledger, the submission/cancellation gate,
and the per-bar event-resolution pass of `BacktestEngine`.

Modelling conventions:
* Python floats are modelled by `ℚ`; the single place where the source can
  produce a NaN (`np.NaN`, `backtest.py` line 116) is modelled by
  `Option ℚ` with `none` standing for NaN, and the small `fv*` helpers
  implement IEEE-style NaN propagation for the arithmetic the ledger
  performs on price-derived values.
* `InstrumentID` (an exchange/symbol pair used only as a dictionary key)
  is modelled by an opaque key type `ℕ`.
* Python's in-place mutation of shared `Order` objects is modelled by an
  arena: orders live in `EngState.orders`, indexed by `order_id`, and
  events reference orders by that id (the arena style suggested by the
  spec's own design notes).
* Strategy callbacks (`on_order_executed` / `on_order_cancelled`) are
  recorded in a notification log instead of invoking a pluggable object;
  the strategy's own commands (`submit_order` / `cancel_order`) appear as
  explicit steps of a run, interleaved with bars.
* `datetime` values are modelled by `ℕ` timestamps (`Option ℕ` where the
  source initialises with `None`).
-/

namespace Mlft

/-- Instrument identifier (`InstrumentID` in `strategy.py`): an opaque,
decidable dictionary key. -/
abbrev InstrumentID := ℕ

/-- `Direction` in `strategy.py` (lines 15-18). -/
inductive Direction where
  | Buy
  | Sell
deriving DecidableEq, Repr

/-- `TimeInForce` in `strategy.py` (lines 21-24). -/
inductive TimeInForce where
  | IOC
  | GTC
deriving DecidableEq, Repr

/-- `MatchAlgorithm` in `backtest.py` (lines 18-22). -/
inductive MatchAlgorithm where
  | NoTrade
  | AlwaysFilled
deriving DecidableEq, Repr

/-- `InstrumentInfo` in `strategy.py` (lines 51-64). -/
structure InstrumentInfo where
  ins_id : InstrumentID
  px_tick : ℚ
  qty_tick : ℚ
  multiplier : ℚ
  fee_per_qty : ℚ
  fee_per_mv : ℚ
deriving DecidableEq, Repr

/-- `BarData` in `strategy.py` (lines 67-86); timestamps as `ℕ`. -/
structure BarData where
  time : ℕ
  last_time : ℕ
  open_px : ℚ
  high_px : ℚ
  low_px : ℚ
  last_px : ℚ
  trade_qty : ℚ
  trade_mv : ℚ
  hold_qty : ℚ
deriving DecidableEq, Repr

/-! ## Float values with NaN

`Option ℚ` models a Python float that may be NaN (`none`). The helpers
propagate `none` exactly as IEEE arithmetic propagates NaN through the
operations the ledger uses. Division only ever occurs with a nonzero
real denominator in the guarded branches of the source, so `fvDivQ`
never meets a zero denominator on reachable states. -/

/-- NaN-propagating addition of two float values. -/
def fvAdd : Option ℚ → Option ℚ → Option ℚ
  | some a, some b => some (a + b)
  | _, _ => none

/-- NaN-propagating subtraction of two float values. -/
def fvSub : Option ℚ → Option ℚ → Option ℚ
  | some a, some b => some (a - b)
  | _, _ => none

/-- Float value times a real scalar on the right (`x * c`). -/
def fvMulQ (x : Option ℚ) (c : ℚ) : Option ℚ := x.map (· * c)

/-- Real scalar times a float value (`c * x`). -/
def fvQMul (c : ℚ) (x : Option ℚ) : Option ℚ := x.map (c * ·)

/-- Float value divided by a real scalar (`x / c`). -/
def fvDivQ (x : Option ℚ) (c : ℚ) : Option ℚ := x.map (· / c)

/-- `Position` in `strategy.py` (lines 89-105). The `pending_qty`
dictionary keyed by `Direction` is expanded into its two entries. -/
structure Position where
  instrument : InstrumentInfo
  max_hold_qty : ℚ
  hold_qty : ℚ
  hold_mv : Option ℚ
  pending_buy : ℚ
  pending_sell : ℚ
  real_profit : Option ℚ
  fee : Option ℚ
deriving DecidableEq, Repr

/-- Read `pending_qty[d]`. -/
def Position.pending_qty (pos : Position) : Direction → ℚ
  | .Buy => pos.pending_buy
  | .Sell => pos.pending_sell

/-- Write `pending_qty[d] := v`. -/
def Position.setPending (pos : Position) : Direction → ℚ → Position
  | .Buy, v => { pos with pending_buy := v }
  | .Sell, v => { pos with pending_sell := v }

/-- A fresh position as built by the instrument-loading loop of
`BacktestEngine.__init__` (`backtest.py` lines 60-74): all mutable
fields start at zero (`strategy.py` lines 96-105). -/
def mkPosition (info : InstrumentInfo) (maxHold : ℚ) : Position :=
  { instrument := info
    max_hold_qty := maxHold
    hold_qty := 0
    hold_mv := some 0
    pending_buy := 0
    pending_sell := 0
    real_profit := some 0
    fee := some 0 }

/-- `Order` in `strategy.py` (lines 108-132). The Python field
`position` is a shared reference to the order's `Position`; here the
link is the position's instrument key `ins_id`. `pend_qty` starts equal
to `orig_qty` (`__post_init__`). -/
structure Order where
  order_id : ℕ
  ins_id : InstrumentID
  direction : Direction
  tif : TimeInForce
  limit_px : Option ℚ
  orig_qty : ℚ
  pend_qty : ℚ
  exec_qty : ℚ
  insert_time : Option ℕ
  last_time : Option ℕ
deriving DecidableEq, Repr

/-- `Trade` in `strategy.py` (lines 144-159); the Python field `order`
is a shared reference, modelled by the order's arena id. -/
structure Trade where
  trade_id : ℕ
  order_id : ℕ
  time : Option ℕ
  px : Option ℚ
  qty : ℚ
  fee : Option ℚ
  profit : Option ℚ
deriving DecidableEq, Repr

/-- Event kind of `_Event.event_type` in `backtest.py`: `fill` is the
fill-attempt event (`event_type = 0`, enqueued by `submit_order`),
`cancel` the cancel event (`event_type = 1`, enqueued by
`cancel_order`). No other event type is ever constructed. -/
inductive EvKind where
  | fill
  | cancel
deriving DecidableEq, Repr

/-- `_Event` in `backtest.py` (lines 35-40): the `order` reference is
modelled by the order's arena id. -/
structure Ev where
  kind : EvKind
  order_id : ℕ
deriving DecidableEq, Repr

/-- A strategy callback occurrence: `on_order_executed` with the trade's
id, or `on_order_cancelled` with the order's id. -/
inductive Notif where
  | executed (trade_id : ℕ)
  | cancelled (order_id : ℕ)
deriving DecidableEq, Repr

/-! ## Association lists

`_positions` and `_cur_px` are Python dicts keyed by `InstrumentID`;
they are modelled by association lists with first-match lookup and
replace-or-append insertion. -/

/-- First-match lookup in an association list. -/
def lookupAssoc {α : Type} : List (InstrumentID × α) → InstrumentID → Option α
  | [], _ => none
  | (k, a) :: l, k2 => if k2 = k then some a else lookupAssoc l k2

/-- Replace-or-append insertion (`d[k] = a`). -/
def insertAssoc {α : Type} : List (InstrumentID × α) → InstrumentID → α → List (InstrumentID × α)
  | [], k, a => [(k, a)]
  | (k2, b) :: l, k, a => if k = k2 then (k, a) :: l else (k2, b) :: insertAssoc l k a

/-- Apply a function to the element at an index, if present. -/
def updateAt {α : Type} : List α → ℕ → (α → α) → List α
  | [], _, _ => []
  | a :: l, 0, f => f a :: l
  | a :: l, n + 1, f => a :: updateAt l n f

/-! ## Position ledger -/

/-- Result of applying one fill to a position's ledger fields. -/
structure FillRes where
  pos : Position
  close_qty : ℚ
  profit : Option ℚ
deriving Repr

/-- The position-ledger update for a fill of quantity `q` at price `px`
in direction `d`: `backtest.py` lines 120-139, transcribed branch by
branch (`px = none` models a NaN fill price). -/
def applyFill (pos : Position) (d : Direction) (q : ℚ) (px : Option ℚ) : FillRes :=
  match d with
  | .Buy =>
    if pos.hold_qty < 0 then
      -- lines 121-124: buy closing (part of) a short
      let c := min (-pos.hold_qty) q
      let profit := fvMulQ (fvSub (fvDivQ pos.hold_mv pos.hold_qty) px) c
      let mv1 := fvMulQ pos.hold_mv (1 - c / -pos.hold_qty)
      -- lines 128-129
      { pos := { pos with
                  hold_qty := pos.hold_qty + q
                  hold_mv := fvAdd mv1 (fvQMul (q - c) px) }
        close_qty := c
        profit := profit }
    else
      -- lines 125-129
      { pos := { pos with
                  hold_qty := pos.hold_qty + q
                  hold_mv := fvAdd pos.hold_mv (fvQMul (q - 0) px) }
        close_qty := 0
        profit := some 0 }
  | .Sell =>
    if 0 < pos.hold_qty then
      -- lines 131-134: sell closing (part of) a long
      let c := min pos.hold_qty q
      let profit := fvMulQ (fvSub px (fvDivQ pos.hold_mv pos.hold_qty)) c
      let mv1 := fvMulQ pos.hold_mv (1 - c / pos.hold_qty)
      -- lines 138-139
      { pos := { pos with
                  hold_qty := pos.hold_qty - q
                  hold_mv := fvSub mv1 (fvQMul (q - c) px) }
        close_qty := c
        profit := profit }
    else
      -- lines 135-139
      { pos := { pos with
                  hold_qty := pos.hold_qty - q
                  hold_mv := fvSub pos.hold_mv (fvQMul (q - 0) px) }
        close_qty := 0
        profit := some 0 }

/-- Fee of a fill (`backtest.py` lines 140-141):
`q * fee_per_qty + q * px * fee_per_mv`. -/
def fillFee (pos : Position) (q : ℚ) (px : Option ℚ) : Option ℚ :=
  fvAdd (some (q * pos.instrument.fee_per_qty)) (fvMulQ (fvQMul q px) pos.instrument.fee_per_mv)

/-! ## Engine state -/

/-- The mutable state of `BacktestEngine` (`backtest.py` lines 49-54),
plus the log of strategy notifications issued so far. -/
structure EngState where
  positions : List (InstrumentID × Position)
  orders : List Order
  trades : List Trade
  events : List Ev
  cur_tm : Option ℕ
  cur_px : List (InstrumentID × ℚ)
  notifs : List Notif
deriving DecidableEq, Repr

/-- The engine state at the end of `__init__`'s loading phase (before
any bar is sent): positions built from the instrument file rows
(`ins_id` key taken from the row's `InstrumentInfo`). -/
def initState (rows : List (InstrumentInfo × ℚ)) : EngState :=
  { positions := rows.foldl (fun ps r => insertAssoc ps r.1.ins_id (mkPosition r.1 r.2)) []
    orders := []
    trades := []
    events := []
    cur_tm := none
    cur_px := []
    notifs := [] }

/-- The shared-reference cancel mutation (`backtest.py` lines 159-162,
also the `NoTrade`/IOC branch at lines 155-158): zero `pend_qty`,
release the position's `pending_qty[direction]`, notify the strategy.
`o` must already carry the updated `last_time`; `idx` is the order's
slot in the arena (the source mutates the shared object directly), and
the quantity released is the pending quantity captured before zeroing
(line 112). -/
def cancelEffect (s : EngState) (idx : ℕ) (o : Order) (pos : Position) : EngState :=
  let evQty := o.pend_qty
  let o2 := { o with pend_qty := 0 }
  let pos2 := pos.setPending o.direction (pos.pending_qty o.direction - evQty)
  { s with
      orders := s.orders.set idx o2
      positions := insertAssoc s.positions o.ins_id pos2
      notifs := s.notifs ++ [Notif.cancelled o.order_id] }

/-- Resolution of one queued event (`backtest.py` lines 107-164).
`barIns` is the instrument of the arriving bar: the `ins_id` in scope at
line 116 is the bar-loop variable, so the fill-price lookup is keyed by
the bar's instrument (and since line 105 has just inserted that key, the
NaN fallback of line 116 can never fire inside `processBar`). -/
def procEvent (algo : MatchAlgorithm) (barIns : InstrumentID) (s : EngState) (ev : Ev) :
    EngState :=
  match s.orders.get? ev.order_id with
  | none => s
  | some o0 =>
    if o0.pend_qty ≤ 0 then s  -- line 108: already resolved, skip
    else
      let o := { o0 with last_time := s.cur_tm }  -- line 110
      let evQty := o.pend_qty  -- line 112
      match lookupAssoc s.positions o.ins_id with
      | none =>
        -- unreachable on reachable states: every order is created by
        -- `submit_order` against an existing position; only the
        -- line-110 mutation has happened at this point
        { s with orders := s.orders.set ev.order_id o }
      | some pos =>
        match ev.kind with
        | .fill =>
          match algo with
          | .AlwaysFilled =>
            -- lines 114-154
            let evPx : Option ℚ := lookupAssoc s.cur_px barIns  -- line 116; none = NaN
            let o2 := { o with exec_qty := evQty, pend_qty := 0 }  -- lines 117-118
            let pos1 := pos.setPending o.direction (pos.pending_qty o.direction - evQty)
            let fr := applyFill pos1 o.direction evQty evPx  -- lines 120-139
            let evFee := fillFee pos1 evQty evPx  -- lines 140-141
            let trade : Trade :=  -- lines 142-150
              { trade_id := s.trades.length
                order_id := o.order_id
                time := s.cur_tm
                px := evPx
                qty := evQty
                fee := evFee
                profit := fr.profit }
            let pos2 := { fr.pos with  -- lines 152-153
                            fee := fvAdd fr.pos.fee evFee
                            real_profit := fvAdd fr.pos.real_profit fr.profit }
            { s with
                orders := s.orders.set ev.order_id o2
                positions := insertAssoc s.positions o.ins_id pos2
                trades := s.trades ++ [trade]
                notifs := s.notifs ++ [Notif.executed trade.trade_id] }
          | .NoTrade =>
            if o.tif = TimeInForce.IOC then
              -- lines 155-158: IOC self-cancels
              cancelEffect s ev.order_id o pos
            else
              -- GTC: no branch taken, but line 110 already updated
              -- `last_time` on the shared order object
              { s with orders := s.orders.set ev.order_id o }
        | .cancel =>
          -- lines 159-162
          cancelEffect s ev.order_id o pos

/-- Resolve a list of queued events in order. -/
def procEvents (algo : MatchAlgorithm) (barIns : InstrumentID) :
    EngState → List Ev → EngState
  | s, [] => s
  | s, ev :: evs => procEvents algo barIns (procEvent algo barIns s ev) evs

/-- One iteration of the bar loop (`backtest.py` lines 97-167): record
the bar time and last price (lines 104-105), resolve every queued event
(lines 107-164), then clear the queue (line 165). The strategy's
`on_bar_data` reaction is modelled by the command steps that follow the
bar in a run. -/
def processBar (algo : MatchAlgorithm) (s : EngState) (barIns : InstrumentID)
    (bar : BarData) : EngState :=
  let s1 := { s with
                cur_tm := some bar.last_time
                cur_px := insertAssoc s.cur_px barIns bar.last_px }
  let s2 := procEvents algo barIns s1 s1.events
  { s2 with events := [] }

/-- `BacktestEngine.submit_order` (`backtest.py` lines 203-228).
Returns the updated state and the created order, if any. -/
def submit_order (s : EngState) (ins_id : InstrumentID) (dir : Direction) (qty : ℚ)
    (tif : TimeInForce) (lmt_px : Option ℚ) : EngState × Option Order :=
  match lookupAssoc s.positions ins_id with
  | none => (s, none)
  | some ins_pos =>
    let max_qty :=
      match dir with
      | .Buy => ins_pos.max_hold_qty - ins_pos.hold_qty - ins_pos.pending_qty .Buy
      | .Sell => ins_pos.max_hold_qty + ins_pos.hold_qty - ins_pos.pending_qty .Sell
    let qty2 := min qty max_qty
    if qty2 ≤ 0 then (s, none)
    else
      let order : Order :=
        { order_id := s.orders.length
          ins_id := ins_id
          direction := dir
          tif := tif
          limit_px := lmt_px
          orig_qty := qty2
          pend_qty := qty2  -- `__post_init__`
          exec_qty := 0
          insert_time := s.cur_tm
          last_time := none }
      ({ s with
           orders := s.orders ++ [order]
           positions := insertAssoc s.positions ins_id
             (ins_pos.setPending dir (ins_pos.pending_qty dir + qty2))
           events := s.events ++ [{ kind := .fill, order_id := order.order_id }] },
       some order)

/-- `BacktestEngine.cancel_order` (`backtest.py` lines 230-234). The
Python function receives the order object; here it is addressed by its
arena id. -/
def cancel_order (s : EngState) (oid : ℕ) : EngState × Bool :=
  match s.orders.get? oid with
  | none => (s, false)
  | some o =>
    if o.pend_qty = 0 ∨ o.tif = TimeInForce.IOC then (s, false)
    else ({ s with events := s.events ++ [{ kind := .cancel, order_id := oid }] }, true)

/-! ## Runs -/

/-- One step of a run: a bar arriving from the feed, or a strategy
command issued through the gate. -/
inductive Step where
  | bar (ins_id : InstrumentID) (bar : BarData)
  | submit (ins_id : InstrumentID) (dir : Direction) (qty : ℚ) (tif : TimeInForce)
      (lmt_px : Option ℚ)
  | cancel (oid : ℕ)

/-- Apply one step to the engine state. -/
def stepEngine (algo : MatchAlgorithm) (s : EngState) : Step → EngState
  | .bar ins b => processBar algo s ins b
  | .submit ins dir qty tif lmt => (submit_order s ins dir qty tif lmt).1
  | .cancel oid => (cancel_order s oid).1

/-- Run the engine from the freshly loaded state through a list of
steps. -/
def runEngine (algo : MatchAlgorithm) (rows : List (InstrumentInfo × ℚ))
    (steps : List Step) : EngState :=
  steps.foldl (stepEngine algo) (initState rows)

/-! ## Observables -/

/-- The contribution of one order to the pending-quantity total of
instrument `ins` in direction `d`: its `pend_qty` when it is an order of
that instrument and direction, `0` otherwise. -/
def contrib (o : Order) (ins : InstrumentID) (d : Direction) : ℚ :=
  if o.ins_id = ins ∧ o.direction = d then o.pend_qty else 0

/-- Sum of `pend_qty` over all orders of instrument `ins` and direction
`d` in the order log (resolved orders contribute `0`, so this equals the
sum over the orders still awaiting resolution). -/
def pendSum (l : List Order) (ins : InstrumentID) (d : Direction) : ℚ :=
  (l.map (fun o => contrib o ins d)).sum

/-- Number of occurrences of `x` in a list. -/
def countN {α : Type} [DecidableEq α] (x : α) : List α → ℕ
  | [] => 0
  | a :: l => (if a = x then 1 else 0) + countN x l

/-- How many trades of the run were fills of order `i`. -/
def tradeCount (s : EngState) (i : ℕ) : ℕ :=
  countN i (s.trades.map (fun t => t.order_id))

/-- How many `on_order_cancelled` notifications the strategy received
for order `i`. -/
def cancelCount (s : EngState) (i : ℕ) : ℕ :=
  countN (Notif.cancelled i) s.notifs

/-! ## List lemmas -/

theorem get?_append_lt {α : Type} :
    ∀ (l l2 : List α) (i : ℕ), i < l.length → (l ++ l2).get? i = l.get? i
  | _ :: _, _, 0, _ => rfl
  | _ :: l, l2, i + 1, h => get?_append_lt l l2 i (Nat.lt_of_succ_lt_succ h)

theorem get?_append_self {α : Type} :
    ∀ (l : List α) (a : α), (l ++ [a]).get? l.length = some a
  | [], _ => rfl
  | _ :: l, a => get?_append_self l a

theorem get?_append_gt {α : Type} :
    ∀ (l : List α) (a : α) (i : ℕ), l.length < i → (l ++ [a]).get? i = none
  | [], _, _ + 1, _ => rfl
  | [], _, 0, h => absurd h (by simp)
  | _ :: l, a, i + 1, h => get?_append_gt l a i (Nat.lt_of_succ_lt_succ h)
  | _ :: _, _, 0, h => absurd h (by simp)

theorem get?_lt_length {α : Type} :
    ∀ (l : List α) (i : ℕ) (a : α), l.get? i = some a → i < l.length
  | _ :: _, 0, _, _ => Nat.succ_pos _
  | _ :: l, i + 1, a, h => Nat.succ_lt_succ (get?_lt_length l i a h)

theorem get?_set_self {α : Type} :
    ∀ (l : List α) (i : ℕ) (a : α), i < l.length → (l.set i a).get? i = some a
  | _ :: _, 0, _, _ => rfl
  | _ :: l, i + 1, a, h => get?_set_self l i a (Nat.lt_of_succ_lt_succ h)

theorem get?_set_ne {α : Type} :
    ∀ (l : List α) (i j : ℕ) (a : α), i ≠ j → (l.set i a).get? j = l.get? j := by
  intro l
  induction l with
  | nil => intro i j a _; simp [List.set]
  | cons c l ih =>
    intro i j a hne
    match i, j with
    | 0, 0 => exact absurd rfl hne
    | 0, _ + 1 => rfl
    | _ + 1, 0 => rfl
    | i + 1, j + 1 =>
      show (l.set i a).get? j = l.get? j
      exact ih i j a (fun h => hne (congrArg Nat.succ h))

theorem lookup_insert {α : Type} (l : List (InstrumentID × α)) (k : InstrumentID) (a : α)
    (k2 : InstrumentID) :
    lookupAssoc (insertAssoc l k a) k2 = if k2 = k then some a else lookupAssoc l k2 := by
  induction l with
  | nil => simp [insertAssoc, lookupAssoc]
  | cons hd tl ih =>
    obtain ⟨k3, b⟩ := hd
    by_cases hk : k = k3
    · subst hk
      by_cases hk2 : k2 = k <;> simp [insertAssoc, lookupAssoc, hk2]
    · have h1 : insertAssoc ((k3, b) :: tl) k a = (k3, b) :: insertAssoc tl k a := by
        simp [insertAssoc, hk]
      rw [h1]
      by_cases hk2 : k2 = k3
      · subst hk2
        have hne : ¬k2 = k := fun h => hk h.symm
        simp [lookupAssoc, hne]
      · simp [lookupAssoc, hk2, ih]

theorem pendSum_append (l : List Order) (o : Order) (ins : InstrumentID) (d : Direction) :
    pendSum (l ++ [o]) ins d = pendSum l ins d + contrib o ins d := by
  simp [pendSum]

theorem pendSum_set :
    ∀ (l : List Order) (i : ℕ) (o o2 : Order), l.get? i = some o →
    ∀ (ins : InstrumentID) (d : Direction),
    pendSum (l.set i o2) ins d = pendSum l ins d - contrib o ins d + contrib o2 ins d := by
  intro l
  induction l with
  | nil => intro i o o2 h; cases h
  | cons b l ih =>
    intro i o o2 h ins d
    match i with
    | 0 =>
      have hb : b = o := by simpa using h
      subst hb
      simp only [List.set]
      simp [pendSum]
      ring
    | i + 1 =>
      show pendSum (b :: l.set i o2) ins d = pendSum (b :: l) ins d - contrib o ins d + contrib o2 ins d
      have := ih i o o2 h ins d
      simp [pendSum] at this ⊢
      rw [this]
      ring

theorem countN_append {α : Type} [DecidableEq α] (x : α) :
    ∀ (l l2 : List α), countN x (l ++ l2) = countN x l + countN x l2
  | [], _ => (Nat.zero_add _).symm
  | a :: l, l2 => by
    show (if a = x then 1 else 0) + countN x (l ++ l2) =
      (if a = x then 1 else 0) + countN x l + countN x l2
    rw [countN_append x l l2, Nat.add_assoc]

theorem countN_eq_zero {α : Type} [DecidableEq α] (x : α) :
    ∀ (l : List α), x ∉ l → countN x l = 0
  | [], _ => rfl
  | a :: l, h => by
    have hax : ¬a = x := fun hh => h (hh ▸ List.mem_cons_self a l)
    show (if a = x then 1 else 0) + countN x l = 0
    rw [if_neg hax, countN_eq_zero x l (fun hm => h (List.mem_cons_of_mem a hm)),
      Nat.add_zero]

theorem countN_singleton_ne {α : Type} [DecidableEq α] (x a : α) (h : ¬a = x) :
    countN x [a] = 0 := by
  show (if a = x then 1 else 0) + 0 = 0
  rw [if_neg h]

theorem countN_singleton_self {α : Type} [DecidableEq α] (x : α) : countN x [x] = 1 := by
  show (if x = x then 1 else 0) + 0 = 1
  rw [if_pos rfl]

/-! ## Small accessor lemmas -/

theorem setPending_pending (pos : Position) (d d2 : Direction) (v : ℚ) :
    (pos.setPending d v).pending_qty d2 = if d2 = d then v else pos.pending_qty d2 := by
  cases d <;> cases d2 <;> simp [Position.setPending, Position.pending_qty]

theorem setPending_hold_qty (pos : Position) (d : Direction) (v : ℚ) :
    (pos.setPending d v).hold_qty = pos.hold_qty := by
  cases d <;> rfl

theorem setPending_hold_mv (pos : Position) (d : Direction) (v : ℚ) :
    (pos.setPending d v).hold_mv = pos.hold_mv := by
  cases d <;> rfl

theorem applyFill_pending (pos : Position) (d : Direction) (q : ℚ) (px : Option ℚ)
    (d2 : Direction) :
    (applyFill pos d q px).pos.pending_qty d2 = pos.pending_qty d2 := by
  cases d <;> cases d2 <;> simp [applyFill] <;> split <;>
    simp [Position.pending_qty]

theorem applyFill_isSome (pos : Position) (d : Direction) (q p : ℚ)
    (hm : pos.hold_mv.isSome) :
    (applyFill pos d q (some p)).pos.hold_mv.isSome := by
  obtain ⟨m, hm⟩ := Option.isSome_iff_exists.mp hm
  cases d <;> simp only [applyFill] <;> split <;>
    simp [hm, fvAdd, fvSub, fvMulQ, fvQMul, fvDivQ]

theorem applyFill_hold_zero (pos : Position) (d : Direction) (q p m : ℚ)
    (hq : 0 < q) (hm : pos.hold_mv = some m) :
    (applyFill pos d q (some p)).pos.hold_qty = 0 →
    (applyFill pos d q (some p)).pos.hold_mv = some 0 := by
  have hq0 : q ≠ 0 := ne_of_gt hq
  cases d with
  | Buy =>
    by_cases hneg : pos.hold_qty < 0
    · simp only [applyFill, if_pos hneg]
      intro hz
      have hh : pos.hold_qty = -q := by linarith
      have hc : min (-pos.hold_qty) q = q := by rw [hh]; simp
      simp [hm, fvAdd, fvMulQ, fvQMul, hc, hh, div_self hq0]
    · simp only [applyFill, if_neg hneg]
      intro hz
      exfalso
      push_neg at hneg
      linarith
  | Sell =>
    by_cases hpos2 : 0 < pos.hold_qty
    · simp only [applyFill, if_pos hpos2]
      intro hz
      have hh : pos.hold_qty = q := by linarith
      have hc : min pos.hold_qty q = q := by rw [hh]; simp
      simp [hm, fvSub, fvMulQ, fvQMul, hc, hh, div_self hq0]
    · simp only [applyFill, if_neg hpos2]
      intro hz
      exfalso
      push_neg at hpos2
      linarith

/-! ## The run invariant -/

/-- The engine invariant, maintained at every reachable state of a run:
arena slots carry their own ids; every order is either untouched
(`exec_qty = 0`, `pend_qty = orig_qty`), filled in full (`pend_qty = 0`,
`exec_qty = orig_qty`), or cancelled (`pend_qty = exec_qty = 0`, with a
cancellation notification on record); each position's per-direction
pending quantity equals the summed `pend_qty` of its orders; `hold_mv`
is a real number (never NaN) and vanishes whenever `hold_qty` does; an
order with remaining pending quantity has produced neither a trade nor a
cancellation notification; and each order produces at most one trade or
cancellation notification in total. -/
structure Inv (s : EngState) : Prop where
  ordIds : ∀ i o, s.orders.get? i = some o → o.order_id = i
  life : ∀ i o, s.orders.get? i = some o →
    (o.exec_qty = 0 ∧ o.pend_qty = o.orig_qty) ∨
    (o.pend_qty = 0 ∧ o.exec_qty = o.orig_qty) ∨
    (o.pend_qty = 0 ∧ o.exec_qty = 0 ∧ Notif.cancelled i ∈ s.notifs)
  psum : ∀ ins pos, lookupAssoc s.positions ins = some pos →
    ∀ d, pos.pending_qty d = pendSum s.orders ins d
  hmvFin : ∀ ins pos, lookupAssoc s.positions ins = some pos → pos.hold_mv.isSome
  hmvZero : ∀ ins pos, lookupAssoc s.positions ins = some pos →
    pos.hold_qty = 0 → pos.hold_mv = some 0
  tr0 : ∀ i o, s.orders.get? i = some o → 0 < o.pend_qty → tradeCount s i = 0
  cn0 : ∀ i o, s.orders.get? i = some o → 0 < o.pend_qty → Notif.cancelled i ∉ s.notifs
  cnt : ∀ i, tradeCount s i + cancelCount s i ≤ 1
  trid : ∀ t ∈ s.trades, t.order_id < s.orders.length
  cnid : ∀ i, Notif.cancelled i ∈ s.notifs → i < s.orders.length

/-! ## Stability of engine fields under event processing -/

theorem get?_some_of_lt {α : Type} :
    ∀ (l : List α) (i : ℕ), i < l.length → ∃ c, l.get? i = some c
  | a :: _, 0, _ => ⟨a, rfl⟩
  | _ :: l, i + 1, h => get?_some_of_lt l i (Nat.lt_of_succ_lt_succ h)

theorem procEvent_cur_px (algo : MatchAlgorithm) (barIns : InstrumentID) (s : EngState)
    (ev : Ev) : (procEvent algo barIns s ev).cur_px = s.cur_px := by
  unfold procEvent cancelEffect
  repeat' first | split | dsimp only

theorem procEvent_cur_tm (algo : MatchAlgorithm) (barIns : InstrumentID) (s : EngState)
    (ev : Ev) : (procEvent algo barIns s ev).cur_tm = s.cur_tm := by
  unfold procEvent cancelEffect
  repeat' first | split | dsimp only

theorem procEvent_events (algo : MatchAlgorithm) (barIns : InstrumentID) (s : EngState)
    (ev : Ev) : (procEvent algo barIns s ev).events = s.events := by
  unfold procEvent cancelEffect
  repeat' first | split | dsimp only

theorem procEvent_orders_length (algo : MatchAlgorithm) (barIns : InstrumentID)
    (s : EngState) (ev : Ev) :
    (procEvent algo barIns s ev).orders.length = s.orders.length := by
  unfold procEvent cancelEffect
  repeat' first | split | dsimp only
  all_goals simp [List.length_set]

theorem procEvents_cur_px (algo : MatchAlgorithm) (barIns : InstrumentID) :
    ∀ (evs : List Ev) (s : EngState), (procEvents algo barIns s evs).cur_px = s.cur_px
  | [], _ => rfl
  | ev :: evs, s => by
    show (procEvents algo barIns (procEvent algo barIns s ev) evs).cur_px = s.cur_px
    rw [procEvents_cur_px algo barIns evs _, procEvent_cur_px]

/-! ## Invariant preservation, event by event -/

/-- Writing back an order with only its `last_time` field changed (the
line-110 mutation) preserves the invariant. -/
theorem inv_lastTime (s : EngState) (h : Inv s) (i : ℕ) (o0 : Order) (tm : Option ℕ)
    (hget : s.orders.get? i = some o0) :
    Inv { s with orders := s.orders.set i { o0 with last_time := tm } } := by
  have hlen := get?_lt_length _ _ _ hget
  constructor
  case ordIds =>
    intro j o hj
    by_cases hij : i = j
    · subst hij
      rw [get?_set_self _ _ _ hlen] at hj
      cases hj
      exact h.ordIds i o0 hget
    · rw [get?_set_ne _ _ _ _ hij] at hj
      exact h.ordIds j o hj
  case life =>
    intro j o hj
    by_cases hij : i = j
    · subst hij
      rw [get?_set_self _ _ _ hlen] at hj
      cases hj
      exact h.life i o0 hget
    · rw [get?_set_ne _ _ _ _ hij] at hj
      exact h.life j o hj
  case psum =>
    intro ins pos hpos d
    have := h.psum ins pos hpos d
    show pos.pending_qty d = pendSum (s.orders.set i { o0 with last_time := tm }) ins d
    rw [pendSum_set s.orders i o0 _ hget ins d]
    have hc : contrib { o0 with last_time := tm } ins d = contrib o0 ins d := rfl
    rw [hc, this]
    ring
  case hmvFin => exact h.hmvFin
  case hmvZero => exact h.hmvZero
  case tr0 =>
    intro j o hj hp
    by_cases hij : i = j
    · subst hij
      rw [get?_set_self _ _ _ hlen] at hj
      cases hj
      exact h.tr0 i o0 hget hp
    · rw [get?_set_ne _ _ _ _ hij] at hj
      exact h.tr0 j o hj hp
  case cn0 =>
    intro j o hj hp
    by_cases hij : i = j
    · subst hij
      rw [get?_set_self _ _ _ hlen] at hj
      cases hj
      exact h.cn0 i o0 hget hp
    · rw [get?_set_ne _ _ _ _ hij] at hj
      exact h.cn0 j o hj hp
  case cnt => exact h.cnt
  case trid =>
    intro t ht
    show t.order_id < (s.orders.set i _).length
    rw [List.length_set]
    exact h.trid t ht
  case cnid =>
    intro j hj
    show j < (s.orders.set i _).length
    rw [List.length_set]
    exact h.cnid j hj

/-- An order with remaining pending quantity is in the untouched
lifecycle state: nothing executed, `pend_qty = orig_qty`. -/
theorem life_of_pend_pos (s : EngState) (h : Inv s) (i : ℕ) (o0 : Order)
    (hget : s.orders.get? i = some o0) (hpend : 0 < o0.pend_qty) :
    o0.exec_qty = 0 ∧ o0.pend_qty = o0.orig_qty := by
  rcases h.life i o0 hget with h1 | h2 | h3
  · exact h1
  · rw [h2.1] at hpend
    exact absurd hpend (lt_irrefl 0)
  · rw [h3.1] at hpend
    exact absurd hpend (lt_irrefl 0)

/-- The cancel mutation (from a cancel event, or from `NoTrade` on an
IOC order) preserves the invariant. -/
theorem inv_cancelEffect (s : EngState) (h : Inv s) (i : ℕ) (o0 : Order) (tm : Option ℕ)
    (pos : Position) (hget : s.orders.get? i = some o0) (hpend : 0 < o0.pend_qty)
    (hpos : lookupAssoc s.positions o0.ins_id = some pos) :
    Inv (cancelEffect s i { o0 with last_time := tm } pos) := by
  have hlen := get?_lt_length _ _ _ hget
  have hid : o0.order_id = i := h.ordIds i o0 hget
  have hfirst := life_of_pend_pos s h i o0 hget hpend
  have htr0 := h.tr0 i o0 hget hpend
  have hcn0 := h.cn0 i o0 hget hpend
  show Inv { s with
      orders := s.orders.set i { o0 with last_time := tm, pend_qty := 0 },
      positions := insertAssoc s.positions o0.ins_id
        (pos.setPending o0.direction (pos.pending_qty o0.direction - o0.pend_qty)),
      notifs := s.notifs ++ [Notif.cancelled o0.order_id] }
  constructor
  case ordIds =>
    intro j o hj
    by_cases hij : i = j
    · subst hij
      rw [get?_set_self _ _ _ hlen] at hj
      cases hj
      exact hid
    · rw [get?_set_ne _ _ _ _ hij] at hj
      exact h.ordIds j o hj
  case life =>
    intro j o hj
    by_cases hij : i = j
    · subst hij
      rw [get?_set_self _ _ _ hlen] at hj
      cases hj
      refine Or.inr (Or.inr ⟨rfl, hfirst.1, ?_⟩)
      rw [hid]
      exact List.mem_append_right _ (List.mem_singleton.mpr rfl)
    · rw [get?_set_ne _ _ _ _ hij] at hj
      rcases h.life j o hj with h1 | h2 | h3
      · exact Or.inl h1
      · exact Or.inr (Or.inl h2)
      · exact Or.inr (Or.inr ⟨h3.1, h3.2.1, List.mem_append_left _ h3.2.2⟩)
  case psum =>
    intro ins pos3 hpos3 d
    rw [lookup_insert] at hpos3
    have hset : pendSum (s.orders.set i { o0 with last_time := tm, pend_qty := 0 }) ins d =
        pendSum s.orders ins d - contrib o0 ins d +
          contrib { o0 with last_time := tm, pend_qty := 0 } ins d :=
      pendSum_set s.orders i o0 _ hget ins d
    have hc1 : contrib { o0 with last_time := tm, pend_qty := 0 } ins d = 0 := by
      simp [contrib]
    by_cases hins : ins = o0.ins_id
    · subst hins
      rw [if_pos rfl] at hpos3
      cases hpos3
      have hbase := h.psum o0.ins_id pos hpos d
      show (pos.setPending o0.direction (pos.pending_qty o0.direction - o0.pend_qty)).pending_qty d =
        _
      rw [hset, hc1, setPending_pending]
      by_cases hd : d = o0.direction
      · subst hd
        rw [if_pos rfl]
        have hc0 : contrib o0 o0.ins_id o0.direction = o0.pend_qty := by
          simp [contrib]
        rw [hc0, hbase]
        ring
      · rw [if_neg hd]
        have hc0 : contrib o0 o0.ins_id d = 0 := by
          simp only [contrib, ite_eq_right_iff, and_imp]
          intro _ hdir
          exact absurd hdir.symm hd
        rw [hc0, hbase]
        ring
    · rw [if_neg hins] at hpos3
      have hc0 : contrib o0 ins d = 0 := by
        simp only [contrib, ite_eq_right_iff, and_imp]
        intro hh _
        exact absurd hh.symm hins
      rw [hset, hc0, hc1, h.psum ins pos3 hpos3 d]
      ring
  case hmvFin =>
    intro ins pos3 hpos3
    rw [lookup_insert] at hpos3
    by_cases hins : ins = o0.ins_id
    · rw [if_pos hins] at hpos3
      cases hpos3
      rw [setPending_hold_mv]
      exact h.hmvFin o0.ins_id pos hpos
    · rw [if_neg hins] at hpos3
      exact h.hmvFin ins pos3 hpos3
  case hmvZero =>
    intro ins pos3 hpos3
    rw [lookup_insert] at hpos3
    by_cases hins : ins = o0.ins_id
    · rw [if_pos hins] at hpos3
      cases hpos3
      rw [setPending_hold_mv, setPending_hold_qty]
      exact h.hmvZero o0.ins_id pos hpos
    · rw [if_neg hins] at hpos3
      exact h.hmvZero ins pos3 hpos3
  case tr0 =>
    intro j o hj hp
    by_cases hij : i = j
    · subst hij
      rw [get?_set_self _ _ _ hlen] at hj
      cases hj
      exact absurd hp (lt_irrefl 0)
    · rw [get?_set_ne _ _ _ _ hij] at hj
      exact h.tr0 j o hj hp
  case cn0 =>
    intro j o hj hp
    by_cases hij : i = j
    · subst hij
      rw [get?_set_self _ _ _ hlen] at hj
      cases hj
      exact absurd hp (lt_irrefl 0)
    · rw [get?_set_ne _ _ _ _ hij] at hj
      have hold := h.cn0 j o hj hp
      intro hmem
      rcases List.mem_append.mp hmem with hm | hm
      · exact hold hm
      · rw [List.mem_singleton] at hm
        injection hm with hm2
        rw [hid] at hm2
        exact hij hm2.symm
  case cnt =>
    intro j
    show tradeCount s j + countN (Notif.cancelled j) (s.notifs ++ [Notif.cancelled o0.order_id]) ≤ 1
    rw [countN_append]
    by_cases hij : j = i
    · have htc : tradeCount s j = 0 := by rw [hij]; exact htr0
      have hcc : countN (Notif.cancelled j) s.notifs = 0 := by
        apply countN_eq_zero
        rw [hij]
        exact hcn0
      have hone : countN (Notif.cancelled j) [Notif.cancelled o0.order_id] = 1 := by
        rw [hid, hij]
        exact countN_singleton_self _
      rw [htc, hcc, hone]
    · have hne : ¬Notif.cancelled o0.order_id = Notif.cancelled j := by
        rw [hid]
        intro hh
        injection hh with hh2
        exact hij hh2.symm
      rw [countN_singleton_ne _ _ hne, Nat.add_zero]
      exact h.cnt j
  case trid =>
    intro t ht
    show t.order_id < (s.orders.set i _).length
    rw [List.length_set]
    exact h.trid t ht
  case cnid =>
    intro j hj
    show j < (s.orders.set i _).length
    rw [List.length_set]
    rcases List.mem_append.mp hj with hm | hm
    · exact h.cnid j hm
    · rw [List.mem_singleton] at hm
      cases hm
      rw [hid]
      exact hlen

/-- The `AlwaysFilled` fill mutation preserves the invariant. The
updated position `pos2` is abstracted behind the three facts the
invariant needs: its pending quantities are those of the fill's input
position after the line-119 release, its `hold_mv` is real, and its
`hold_mv` vanishes with its `hold_qty`. The trade's price, fee and
profit are irrelevant to the invariant and universally quantified. -/
theorem inv_fill (s : EngState) (h : Inv s) (i : ℕ) (o0 : Order) (tm : Option ℕ)
    (pos pos2 : Position) (px2 fee2 profit2 : Option ℚ)
    (hget : s.orders.get? i = some o0) (hpend : 0 < o0.pend_qty)
    (hpos : lookupAssoc s.positions o0.ins_id = some pos)
    (hpend2 : ∀ d, pos2.pending_qty d =
      (pos.setPending o0.direction (pos.pending_qty o0.direction - o0.pend_qty)).pending_qty d)
    (hfin : pos2.hold_mv.isSome)
    (hzero : pos2.hold_qty = 0 → pos2.hold_mv = some 0) :
    Inv { s with
        orders := s.orders.set i
          { o0 with last_time := tm, exec_qty := o0.pend_qty, pend_qty := 0 },
        positions := insertAssoc s.positions o0.ins_id pos2,
        trades := s.trades ++
          [(⟨s.trades.length, o0.order_id, tm, px2, o0.pend_qty, fee2, profit2⟩ : Trade)],
        notifs := s.notifs ++ [Notif.executed s.trades.length] } := by
  have hlen := get?_lt_length _ _ _ hget
  have hid : o0.order_id = i := h.ordIds i o0 hget
  have hfirst := life_of_pend_pos s h i o0 hget hpend
  have htr0 := h.tr0 i o0 hget hpend
  have hcn0 := h.cn0 i o0 hget hpend
  constructor
  case ordIds =>
    intro j o hj
    by_cases hij : i = j
    · subst hij
      rw [get?_set_self _ _ _ hlen] at hj
      cases hj
      exact hid
    · rw [get?_set_ne _ _ _ _ hij] at hj
      exact h.ordIds j o hj
  case life =>
    intro j o hj
    by_cases hij : i = j
    · subst hij
      rw [get?_set_self _ _ _ hlen] at hj
      cases hj
      exact Or.inr (Or.inl ⟨rfl, hfirst.2⟩)
    · rw [get?_set_ne _ _ _ _ hij] at hj
      rcases h.life j o hj with h1 | h2 | h3
      · exact Or.inl h1
      · exact Or.inr (Or.inl h2)
      · exact Or.inr (Or.inr ⟨h3.1, h3.2.1, List.mem_append_left _ h3.2.2⟩)
  case psum =>
    intro ins pos3 hpos3 d
    rw [lookup_insert] at hpos3
    have hset : pendSum
        (s.orders.set i { o0 with last_time := tm, exec_qty := o0.pend_qty, pend_qty := 0 }) ins d =
        pendSum s.orders ins d - contrib o0 ins d +
          contrib { o0 with last_time := tm, exec_qty := o0.pend_qty, pend_qty := 0 } ins d :=
      pendSum_set s.orders i o0 _ hget ins d
    have hc1 : contrib { o0 with last_time := tm, exec_qty := o0.pend_qty, pend_qty := 0 } ins d
        = 0 := by
      simp [contrib]
    by_cases hins : ins = o0.ins_id
    · subst hins
      rw [if_pos rfl] at hpos3
      cases hpos3
      have hbase := h.psum o0.ins_id pos hpos d
      rw [hpend2 d, hset, hc1, setPending_pending]
      by_cases hd : d = o0.direction
      · subst hd
        rw [if_pos rfl]
        have hc0 : contrib o0 o0.ins_id o0.direction = o0.pend_qty := by
          simp [contrib]
        rw [hc0, hbase]
        ring
      · rw [if_neg hd]
        have hc0 : contrib o0 o0.ins_id d = 0 := by
          simp only [contrib, ite_eq_right_iff, and_imp]
          intro _ hdir
          exact absurd hdir.symm hd
        rw [hc0, hbase]
        ring
    · rw [if_neg hins] at hpos3
      have hc0 : contrib o0 ins d = 0 := by
        simp only [contrib, ite_eq_right_iff, and_imp]
        intro hh _
        exact absurd hh.symm hins
      rw [hset, hc0, hc1, h.psum ins pos3 hpos3 d]
      ring
  case hmvFin =>
    intro ins pos3 hpos3
    rw [lookup_insert] at hpos3
    by_cases hins : ins = o0.ins_id
    · rw [if_pos hins] at hpos3
      cases hpos3
      exact hfin
    · rw [if_neg hins] at hpos3
      exact h.hmvFin ins pos3 hpos3
  case hmvZero =>
    intro ins pos3 hpos3
    rw [lookup_insert] at hpos3
    by_cases hins : ins = o0.ins_id
    · rw [if_pos hins] at hpos3
      cases hpos3
      exact hzero
    · rw [if_neg hins] at hpos3
      exact h.hmvZero ins pos3 hpos3
  case tr0 =>
    intro j o hj hp
    by_cases hij : i = j
    · subst hij
      rw [get?_set_self _ _ _ hlen] at hj
      cases hj
      exact absurd hp (lt_irrefl 0)
    · rw [get?_set_ne _ _ _ _ hij] at hj
      show countN j ((s.trades ++
        [(⟨s.trades.length, o0.order_id, tm, px2, o0.pend_qty, fee2, profit2⟩ : Trade)]).map
          (fun t => t.order_id)) = 0
      rw [List.map_append, countN_append]
      have hz : countN j ([(⟨s.trades.length, o0.order_id, tm, px2, o0.pend_qty, fee2,
          profit2⟩ : Trade)].map (fun t => t.order_id)) = 0 := by
        apply countN_singleton_ne
        show ¬o0.order_id = j
        rw [hid]
        exact hij
      rw [hz, Nat.add_zero]
      exact h.tr0 j o hj hp
  case cn0 =>
    intro j o hj hp
    by_cases hij : i = j
    · subst hij
      rw [get?_set_self _ _ _ hlen] at hj
      cases hj
      exact absurd hp (lt_irrefl 0)
    · rw [get?_set_ne _ _ _ _ hij] at hj
      have hold := h.cn0 j o hj hp
      intro hmem
      rcases List.mem_append.mp hmem with hm | hm
      · exact hold hm
      · rw [List.mem_singleton] at hm
        cases hm
  case cnt =>
    intro j
    show countN j ((s.trades ++
        [(⟨s.trades.length, o0.order_id, tm, px2, o0.pend_qty, fee2, profit2⟩ : Trade)]).map
          (fun t => t.order_id)) +
      countN (Notif.cancelled j) (s.notifs ++ [Notif.executed s.trades.length]) ≤ 1
    rw [List.map_append, countN_append, countN_append]
    have hz2 : countN (Notif.cancelled j) [Notif.executed s.trades.length] = 0 := by
      apply countN_singleton_ne
      simp
    rw [hz2, Nat.add_zero]
    by_cases hij : j = i
    · have htc : tradeCount s j = 0 := by rw [hij]; exact htr0
      have hcc : countN (Notif.cancelled j) s.notifs = 0 := by
        apply countN_eq_zero
        rw [hij]
        exact hcn0
      have hone : countN j ([(⟨s.trades.length, o0.order_id, tm, px2, o0.pend_qty, fee2,
          profit2⟩ : Trade)].map (fun t => t.order_id)) = 1 := by
        show countN j [o0.order_id] = 1
        rw [hid, hij]
        exact countN_singleton_self _
      rw [hone, hcc]
      show tradeCount s j + 1 + 0 ≤ 1
      rw [htc]
    · have hz : countN j ([(⟨s.trades.length, o0.order_id, tm, px2, o0.pend_qty, fee2,
          profit2⟩ : Trade)].map (fun t => t.order_id)) = 0 := by
        apply countN_singleton_ne
        show ¬o0.order_id = j
        rw [hid]
        intro hh
        exact hij hh.symm
      rw [hz, Nat.add_zero]
      exact h.cnt j
  case trid =>
    intro t ht
    show t.order_id < (s.orders.set i _).length
    rw [List.length_set]
    rcases List.mem_append.mp ht with hm | hm
    · exact h.trid t hm
    · rw [List.mem_singleton] at hm
      cases hm
      show o0.order_id < s.orders.length
      rw [hid]
      exact hlen
  case cnid =>
    intro j hj
    show j < (s.orders.set i _).length
    rw [List.length_set]
    rcases List.mem_append.mp hj with hm | hm
    · exact h.cnid j hm
    · rw [List.mem_singleton] at hm
      cases hm


/-- Record-update facts used when assembling the fill case. -/
theorem updFee_pending (x : Position) (f r : Option ℚ) (d : Direction) :
    ({ x with fee := f, real_profit := r } : Position).pending_qty d = x.pending_qty d := by
  cases d <;> rfl

theorem updFee_hold_mv (x : Position) (f r : Option ℚ) :
    ({ x with fee := f, real_profit := r } : Position).hold_mv = x.hold_mv := rfl

theorem updFee_hold_qty (x : Position) (f r : Option ℚ) :
    ({ x with fee := f, real_profit := r } : Position).hold_qty = x.hold_qty := rfl

/-- One event-resolution step preserves the invariant, provided the
arriving bar's instrument has a recorded price (which `processBar`
guarantees by line 105 before the pass starts). -/
theorem inv_procEvent (algo : MatchAlgorithm) (barIns : InstrumentID) (s : EngState) (ev : Ev)
    (hpx : (lookupAssoc s.cur_px barIns).isSome) (h : Inv s) :
    Inv (procEvent algo barIns s ev) := by
  obtain ⟨p, hp⟩ := Option.isSome_iff_exists.mp hpx
  unfold procEvent
  cases hget : s.orders.get? ev.order_id with
  | none =>
    exact h
  | some o0 =>
    dsimp only
    by_cases hpend : o0.pend_qty ≤ 0
    · rw [if_pos hpend]
      exact h
    · rw [if_neg hpend]
      have hpend2 : 0 < o0.pend_qty := not_le.mp hpend
      cases hpos : lookupAssoc s.positions o0.ins_id with
      | none =>
        exact inv_lastTime s h ev.order_id o0 s.cur_tm hget
      | some pos =>
        cases hkind : ev.kind with
        | cancel =>
          dsimp only
          exact inv_cancelEffect s h ev.order_id o0 s.cur_tm pos hget hpend2 hpos
        | fill =>
          cases algo with
          | AlwaysFilled =>
            dsimp only
            rw [hp]
            refine inv_fill s h ev.order_id o0 s.cur_tm pos _ _ _ _ hget hpend2 hpos ?_ ?_ ?_
            · intro d
              rw [updFee_pending, applyFill_pending]
            · rw [Option.isSome_iff_exists]
              rw [updFee_hold_mv]
              rw [← Option.isSome_iff_exists]
              apply applyFill_isSome
              rw [setPending_hold_mv]
              exact h.hmvFin o0.ins_id pos hpos
            · intro hz
              rw [updFee_hold_qty] at hz
              rw [updFee_hold_mv]
              have hfin := h.hmvFin o0.ins_id pos hpos
              obtain ⟨m, hm⟩ := Option.isSome_iff_exists.mp hfin
              have hm1 : (pos.setPending o0.direction
                  (pos.pending_qty o0.direction - o0.pend_qty)).hold_mv = some m := by
                rw [setPending_hold_mv]
                exact hm
              exact applyFill_hold_zero _ o0.direction o0.pend_qty p m hpend2 hm1 hz
          | NoTrade =>
            dsimp only
            by_cases htif : o0.tif = TimeInForce.IOC
            · rw [if_pos htif]
              exact inv_cancelEffect s h ev.order_id o0 s.cur_tm pos hget hpend2 hpos
            · rw [if_neg htif]
              exact inv_lastTime s h ev.order_id o0 s.cur_tm hget

/-- The invariant does not mention `events`, `cur_tm` or `cur_px`. -/
theorem inv_events_irrel (s : EngState) (evs2 : List Ev) (h : Inv s) :
    Inv { s with events := evs2 } :=
  ⟨h.ordIds, h.life, h.psum, h.hmvFin, h.hmvZero, h.tr0, h.cn0, h.cnt, h.trid, h.cnid⟩

theorem inv_px_tm (s : EngState) (tm : Option ℕ) (px : List (InstrumentID × ℚ)) (h : Inv s) :
    Inv { s with cur_tm := tm, cur_px := px } :=
  ⟨h.ordIds, h.life, h.psum, h.hmvFin, h.hmvZero, h.tr0, h.cn0, h.cnt, h.trid, h.cnid⟩

theorem inv_procEvents (algo : MatchAlgorithm) (barIns : InstrumentID) :
    ∀ (evs : List Ev) (s : EngState), (lookupAssoc s.cur_px barIns).isSome → Inv s →
      Inv (procEvents algo barIns s evs)
  | [], _, _, h => h
  | ev :: evs, s, hpx, h => by
    show Inv (procEvents algo barIns (procEvent algo barIns s ev) evs)
    apply inv_procEvents algo barIns evs
    · rw [procEvent_cur_px]
      exact hpx
    · exact inv_procEvent algo barIns s ev hpx h

/-- A whole bar iteration (price/time update, resolution pass, queue
clearing) preserves the invariant. -/
theorem inv_processBar (algo : MatchAlgorithm) (s : EngState) (barIns : InstrumentID)
    (bar : BarData) (h : Inv s) : Inv (processBar algo s barIns bar) := by
  unfold processBar
  apply inv_events_irrel
  apply inv_procEvents
  · show (lookupAssoc (insertAssoc s.cur_px barIns bar.last_px) barIns).isSome
    rw [lookup_insert, if_pos rfl]
    rfl
  · exact inv_px_tm s (some bar.last_time) (insertAssoc s.cur_px barIns bar.last_px) h

theorem get?_append_one_elim {α : Type} (l : List α) (a : α) (j : ℕ) (b : α)
    (h : (l ++ [a]).get? j = some b) :
    (j < l.length ∧ l.get? j = some b) ∨ (j = l.length ∧ b = a) := by
  rcases Nat.lt_trichotomy j l.length with hj | hj | hj
  · rw [get?_append_lt l [a] j hj] at h
    exact Or.inl ⟨hj, h⟩
  · subst hj
    rw [get?_append_self] at h
    cases h
    exact Or.inr ⟨rfl, rfl⟩
  · rw [get?_append_gt l a j hj] at h
    cases h

/-- Appending a fresh order (the successful `submit_order` path)
preserves the invariant. -/
theorem inv_append_order (s : EngState) (h : Inv s) (ins_id : InstrumentID) (dir : Direction)
    (tif : TimeInForce) (lmt : Option ℚ) (q : ℚ) (pos : Position)
    (hpos : lookupAssoc s.positions ins_id = some pos) :
    Inv { s with
        orders := s.orders ++
          [(⟨s.orders.length, ins_id, dir, tif, lmt, q, q, 0, s.cur_tm, none⟩ : Order)],
        positions := insertAssoc s.positions ins_id
          (pos.setPending dir (pos.pending_qty dir + q)),
        events := s.events ++ [({ kind := .fill, order_id := s.orders.length } : Ev)] } := by
  constructor
  case ordIds =>
    intro j o hj
    rcases get?_append_one_elim _ _ _ _ hj with ⟨hlt, hg⟩ | ⟨hj2, hb⟩
    · exact h.ordIds j o hg
    · subst hj2
      rw [hb]
  case life =>
    intro j o hj
    rcases get?_append_one_elim _ _ _ _ hj with ⟨hlt, hg⟩ | ⟨hj2, hb⟩
    · exact h.life j o hg
    · subst hb
      exact Or.inl ⟨rfl, rfl⟩
  case psum =>
    intro ins pos3 hpos3 d
    rw [lookup_insert] at hpos3
    have hsum : pendSum (s.orders ++
        [(⟨s.orders.length, ins_id, dir, tif, lmt, q, q, 0, s.cur_tm, none⟩ : Order)]) ins d =
        pendSum s.orders ins d +
          contrib (⟨s.orders.length, ins_id, dir, tif, lmt, q, q, 0, s.cur_tm, none⟩ : Order)
            ins d :=
      pendSum_append _ _ _ _
    by_cases hins : ins = ins_id
    · subst hins
      rw [if_pos rfl] at hpos3
      cases hpos3
      rw [hsum, setPending_pending]
      by_cases hd : d = dir
      · subst hd
        rw [if_pos rfl]
        have hc : contrib (⟨s.orders.length, ins, d, tif, lmt, q, q, 0, s.cur_tm, none⟩ :
            Order) ins d = q := by
          simp [contrib]
        rw [hc, h.psum ins pos hpos d]
      · rw [if_neg hd]
        have hc : contrib (⟨s.orders.length, ins, dir, tif, lmt, q, q, 0, s.cur_tm, none⟩ :
            Order) ins d = 0 := by
          simp only [contrib, ite_eq_right_iff, and_imp]
          intro _ hdir
          exact absurd hdir.symm hd
        rw [hc, h.psum ins pos hpos d, add_zero]
    · rw [if_neg hins] at hpos3
      have hc : contrib (⟨s.orders.length, ins_id, dir, tif, lmt, q, q, 0, s.cur_tm, none⟩ :
          Order) ins d = 0 := by
        simp only [contrib, ite_eq_right_iff, and_imp]
        intro hh _
        exact absurd hh.symm hins
      rw [hsum, hc, h.psum ins pos3 hpos3 d, add_zero]
  case hmvFin =>
    intro ins pos3 hpos3
    rw [lookup_insert] at hpos3
    by_cases hins : ins = ins_id
    · rw [if_pos hins] at hpos3
      cases hpos3
      rw [setPending_hold_mv]
      exact h.hmvFin ins_id pos hpos
    · rw [if_neg hins] at hpos3
      exact h.hmvFin ins pos3 hpos3
  case hmvZero =>
    intro ins pos3 hpos3
    rw [lookup_insert] at hpos3
    by_cases hins : ins = ins_id
    · rw [if_pos hins] at hpos3
      cases hpos3
      rw [setPending_hold_mv, setPending_hold_qty]
      exact h.hmvZero ins_id pos hpos
    · rw [if_neg hins] at hpos3
      exact h.hmvZero ins pos3 hpos3
  case tr0 =>
    intro j o hj hp
    rcases get?_append_one_elim _ _ _ _ hj with ⟨hlt, hg⟩ | ⟨hj2, hb⟩
    · exact h.tr0 j o hg hp
    · subst hj2
      apply countN_eq_zero
      intro hmem
      obtain ⟨t, hmt, hteq⟩ := List.mem_map.mp hmem
      have := h.trid t hmt
      rw [hteq] at this
      exact absurd this (lt_irrefl _)
  case cn0 =>
    intro j o hj hp
    rcases get?_append_one_elim _ _ _ _ hj with ⟨hlt, hg⟩ | ⟨hj2, hb⟩
    · exact h.cn0 j o hg hp
    · subst hj2
      intro hmem
      have := h.cnid _ hmem
      exact absurd this (lt_irrefl _)
  case cnt => exact h.cnt
  case trid =>
    intro t ht
    show t.order_id < (s.orders ++ [_]).length
    rw [List.length_append]
    exact Nat.lt_succ_of_lt (h.trid t ht)
  case cnid =>
    intro j hj
    show j < (s.orders ++ [_]).length
    rw [List.length_append]
    exact Nat.lt_succ_of_lt (h.cnid j hj)

/-- `submit_order` preserves the invariant. -/
theorem inv_submit (s : EngState) (h : Inv s) (ins_id : InstrumentID) (dir : Direction)
    (qty : ℚ) (tif : TimeInForce) (lmt : Option ℚ) :
    Inv (submit_order s ins_id dir qty tif lmt).1 := by
  unfold submit_order
  cases hpos : lookupAssoc s.positions ins_id with
  | none => exact h
  | some pos =>
    dsimp only
    split
    · exact h
    · exact inv_append_order s h ins_id dir tif lmt _ pos hpos

/-- `cancel_order` preserves the invariant (it only touches the event
queue). -/
theorem inv_cancel_cmd (s : EngState) (h : Inv s) (oid : ℕ) :
    Inv (cancel_order s oid).1 := by
  unfold cancel_order
  cases s.orders.get? oid with
  | none => exact h
  | some o =>
    dsimp only
    split
    · exact h
    · exact inv_events_irrel s _ h

/-- Positions built by the instrument-loading fold all satisfy any
property enjoyed by every freshly made position. -/
theorem lookup_build (P : Position → Prop)
    (hP : ∀ info maxh, P (mkPosition info maxh)) :
    ∀ (rows : List (InstrumentInfo × ℚ)) (l : List (InstrumentID × Position)),
      (∀ k pos, lookupAssoc l k = some pos → P pos) →
      ∀ k pos,
        lookupAssoc
          (rows.foldl (fun ps r => insertAssoc ps r.1.ins_id (mkPosition r.1 r.2)) l) k =
          some pos → P pos
  | [], _, hl, k, pos, hlk => hl k pos hlk
  | r :: rows, l, hl, k, pos, hlk => by
    refine lookup_build P hP rows (insertAssoc l r.1.ins_id (mkPosition r.1 r.2)) ?_ k pos hlk
    intro k2 pos2 h2
    rw [lookup_insert] at h2
    by_cases hk : k2 = r.1.ins_id
    · rw [if_pos hk] at h2
      cases h2
      exact hP _ _
    · rw [if_neg hk] at h2
      exact hl k2 pos2 h2

/-- The freshly loaded engine state satisfies the invariant. -/
theorem inv_init (rows : List (InstrumentInfo × ℚ)) : Inv (initState rows) := by
  have hfresh : ∀ k pos, lookupAssoc (initState rows).positions k = some pos →
      pos.pending_buy = 0 ∧ pos.pending_sell = 0 ∧ pos.hold_mv = some 0 := by
    refine lookup_build _ ?_ rows [] ?_
    · intro info maxh
      exact ⟨rfl, rfl, rfl⟩
    · intro k pos hk
      cases hk
  constructor
  case ordIds =>
    intro i o hj
    simp [initState] at hj
  case life =>
    intro i o hj
    simp [initState] at hj
  case psum =>
    intro ins pos hpos d
    obtain ⟨hb, hs, _⟩ := hfresh ins pos hpos
    cases d
    · rw [show (pos.pending_qty Direction.Buy) = pos.pending_buy from rfl, hb]
      rfl
    · rw [show (pos.pending_qty Direction.Sell) = pos.pending_sell from rfl, hs]
      rfl
  case hmvFin =>
    intro ins pos hpos
    obtain ⟨_, _, hm⟩ := hfresh ins pos hpos
    rw [hm]
    rfl
  case hmvZero =>
    intro ins pos hpos _
    exact (hfresh ins pos hpos).2.2
  case tr0 =>
    intro i o hj
    simp [initState] at hj
  case cn0 =>
    intro i o hj
    simp [initState] at hj
  case cnt =>
    intro i
    show (0 : ℕ) + 0 ≤ 1
    decide
  case trid =>
    intro t ht
    exact absurd ht (List.not_mem_nil t)
  case cnid =>
    intro j hj
    exact absurd hj (List.not_mem_nil _)

/-- Each run step preserves the invariant. -/
theorem inv_step (algo : MatchAlgorithm) (s : EngState) (st : Step) (h : Inv s) :
    Inv (stepEngine algo s st) := by
  cases st with
  | bar ins b => exact inv_processBar algo s ins b h
  | submit ins dir qty tif lmt => exact inv_submit s h ins dir qty tif lmt
  | cancel oid => exact inv_cancel_cmd s h oid

theorem inv_foldl (algo : MatchAlgorithm) :
    ∀ (steps : List Step) (s : EngState), Inv s → Inv (steps.foldl (stepEngine algo) s)
  | [], _, h => h
  | st :: steps, s, h => inv_foldl algo steps _ (inv_step algo s st h)

/-- Every reachable state of a run satisfies the engine invariant. -/
theorem inv_run (algo : MatchAlgorithm) (rows : List (InstrumentInfo × ℚ))
    (steps : List Step) : Inv (runEngine algo rows steps) :=
  inv_foldl algo steps (initState rows) (inv_init rows)

/-! ## Further event-processing lemmas -/

/-- An event whose order slot is empty does nothing (model artifact:
events created by the engine always reference live orders). -/
theorem procEvent_none (algo : MatchAlgorithm) (barIns : InstrumentID) (s : EngState)
    (ev : Ev) (hget : s.orders.get? ev.order_id = none) :
    procEvent algo barIns s ev = s := by
  unfold procEvent
  rw [hget]

/-- The line-108 guard: an event for an order already resolved
(`pend_qty ≤ 0`) is skipped with no effect at all. -/
theorem procEvent_skip (algo : MatchAlgorithm) (barIns : InstrumentID) (s : EngState)
    (ev : Ev) (o : Order) (hget : s.orders.get? ev.order_id = some o)
    (hpend : o.pend_qty ≤ 0) :
    procEvent algo barIns s ev = s := by
  unfold procEvent
  rw [hget]
  dsimp only
  rw [if_pos hpend]

theorem set_get_self {α : Type} :
    ∀ (l : List α) (i : ℕ) (a : α), l.get? i = some a → l.set i a = l
  | b :: l, 0, a, h => by
    have hb : b = a := by simpa using h
    subst hb
    rfl
  | b :: l, i + 1, a, h => congrArg (b :: ·) (set_get_self l i a h)

theorem updateAt_get? {α : Type} :
    ∀ (l : List α) (i : ℕ) (f : α → α) (j : ℕ),
      (updateAt l i f).get? j = if i = j then (l.get? j).map f else l.get? j := by
  intro l
  induction l with
  | nil =>
    intro i f j
    cases i <;> cases j <;> simp [updateAt]
  | cons b l ih =>
    intro i f j
    match i, j with
    | 0, 0 => simp [updateAt]
    | 0, j + 1 => simp [updateAt]
    | i + 1, 0 => simp [updateAt]
    | i + 1, j + 1 =>
      show (updateAt l i f).get? j = _
      rw [ih i f j]
      by_cases hij : i = j
      · rw [if_pos hij, if_pos (congrArg Nat.succ hij)]
        rfl
      · rw [if_neg hij, if_neg (fun hh => hij (Nat.succ_injective hh))]
        rfl

theorem set_updateAt_same {α : Type} :
    ∀ (l : List α) (i : ℕ) (f : α → α) (b : α), (updateAt l i f).set i b = l.set i b
  | [], _, _, _ => rfl
  | _ :: _, 0, _, _ => rfl
  | a :: l, i + 1, f, b => congrArg (a :: ·) (set_updateAt_same l i f b)

theorem updateAt_set_same {α : Type} :
    ∀ (l : List α) (i : ℕ) (a : α) (f : α → α), updateAt (l.set i a) i f = l.set i (f a)
  | [], _, _, _ => rfl
  | _ :: _, 0, _, _ => rfl
  | c :: l, i + 1, a, f => congrArg (c :: ·) (updateAt_set_same l i a f)

/-! ## Concrete fixtures for witnesses and counterexamples -/

/-- Instrument `0`, unit ticks/multiplier, zero fees. -/
def infoA : InstrumentInfo := ⟨0, 1, 1, 1, 0, 0⟩

/-- Instrument `1`, unit ticks/multiplier, zero fees. -/
def infoB : InstrumentInfo := ⟨1, 1, 1, 1, 0, 0⟩

/-- One-instrument catalog, position cap 10. -/
def rowsA : List (InstrumentInfo × ℚ) := [(infoA, 10)]

/-- Two-instrument catalog, position caps 10. -/
def rowsAB : List (InstrumentInfo × ℚ) := [(infoA, 10), (infoB, 10)]

/-- A bar for time 1 with last price 10. -/
def barA10 : BarData := ⟨1, 1, 10, 10, 10, 10, 0, 0, 0⟩

/-- A bar for time 2 with last price 999. -/
def barB999 : BarData := ⟨2, 2, 999, 999, 999, 999, 0, 0, 0⟩

/-- The spec's §4.2 scenario position: long 3 at average cost 50. -/
def c3pos : Position := { mkPosition infoA 100 with hold_qty := 3, hold_mv := some 150 }

/-! ## Claim theorems -/

/-- **C1.** The claim says an `AlwaysFilled` fill resolves at the
current last-known price *of the order's own instrument*, with NaN when
that instrument has no observed price yet. The code disagrees:
`backtest.py` line 116 keys the `_cur_px` lookup by `ins_id`, the bar
loop's variable — the *arriving bar's* instrument — and line 105 has
just inserted that key, so the NaN fallback is dead. Evaluated at the
failing input (two instruments; a bar for instrument 0 at price 10; a
buy submitted for instrument 0; then a bar for instrument 1 at price
999), the order for instrument 0 is filled at 999, while instrument 0's
own last-known price is 10. -/
theorem c1_fill_price_uses_bar_instrument :
    ((runEngine .AlwaysFilled rowsAB
        [.bar 0 barA10, .submit 0 .Buy 5 .GTC none, .bar 1 barB999]).orders.map
      (fun o => o.ins_id) = [0]) ∧
    ((runEngine .AlwaysFilled rowsAB
        [.bar 0 barA10, .submit 0 .Buy 5 .GTC none, .bar 1 barB999]).trades.map
      (fun t => (t.order_id, t.px)) = [(0, some 999)]) ∧
    (lookupAssoc (runEngine .AlwaysFilled rowsAB
        [.bar 0 barA10, .submit 0 .Buy 5 .GTC none, .bar 1 barB999]).cur_px 0 = some 10) ∧
    (some (999 : ℚ) ≠ some 10) := by
  refine ⟨?_, ?_, ?_, by norm_num⟩ <;>
    norm_num [runEngine, stepEngine, processBar, procEvents, procEvent, submit_order,
      cancel_order, applyFill, fillFee, initState, mkPosition, insertAssoc, lookupAssoc,
      cancelEffect, fvAdd, fvSub, fvMulQ, fvQMul, fvDivQ, Position.pending_qty,
      Position.setPending, rowsA, rowsAB, infoA, infoB, barA10, barB999, List.foldl]

/-- **C2 (counterexample).** The claim asserts
`pend_qty + exec_qty == orig_qty` also after a cancellation. A
cancellation (here: `NoTrade` self-cancelling an IOC order, `backtest.py`
lines 155-158, identical to the cancel-event mutation at lines 159-162)
sets `pend_qty = 0` without touching `exec_qty` or `orig_qty`, leaving
`pend_qty + exec_qty = 0 ≠ 5 = orig_qty`. -/
theorem c2_cancel_breaks_quantity_identity :
    ((runEngine .NoTrade rowsA [.submit 0 .Buy 5 .IOC none, .bar 0 barA10]).orders.map
      (fun o => (o.pend_qty + o.exec_qty, o.orig_qty))) = [((0 : ℚ), (5 : ℚ))] ∧
    ((0 : ℚ) ≠ 5) := by
  refine ⟨?_, by norm_num⟩
  norm_num [runEngine, stepEngine, processBar, procEvents, procEvent, submit_order,
    cancel_order, applyFill, fillFee, initState, mkPosition, insertAssoc, lookupAssoc,
    cancelEffect, fvAdd, fvSub, fvMulQ, fvQMul, fvDivQ, Position.pending_qty,
    Position.setPending, rowsA, infoA, barA10, List.foldl]

/-- **C2 (amended).** For every order, at every point during the run,
`pend_qty + exec_qty = orig_qty` — unless the order has been cancelled,
in which case `pend_qty = exec_qty = 0` (a cancellation zeroes
`pend_qty` without moving the quantity into `exec_qty`; fills are always
for the full remaining quantity, so a cancelled order never has a
partial execution). -/
theorem c2_order_quantity_invariant (algo : MatchAlgorithm)
    (rows : List (InstrumentInfo × ℚ)) (steps : List Step) (i : ℕ) (o : Order)
    (hget : (runEngine algo rows steps).orders.get? i = some o) :
    o.pend_qty + o.exec_qty = o.orig_qty ∨
      (o.pend_qty = 0 ∧ o.exec_qty = 0 ∧
        Notif.cancelled i ∈ (runEngine algo rows steps).notifs) := by
  rcases (inv_run algo rows steps).life i o hget with h1 | h2 | h3
  · rw [h1.1, h1.2]
    exact Or.inl (add_zero _)
  · rw [h2.1, h2.2]
    exact Or.inl (zero_add _)
  · exact Or.inr ⟨h3.1, h3.2.1, h3.2.2⟩

/-- Witness for C2 (amended): the filled order of a one-order
`AlwaysFilled` run. -/
theorem c2_order_quantity_invariant_witness :
    (runEngine .AlwaysFilled rowsA [.submit 0 .Buy 5 .GTC none, .bar 0 barA10]).orders.get? 0 =
      some (⟨0, 0, .Buy, .GTC, none, 5, 0, 5, none, some 1⟩ : Order) ∧
    ((0 : ℚ) + 5 = 5 ∨ ((0 : ℚ) = 0 ∧ (5 : ℚ) = 0 ∧
      Notif.cancelled 0 ∈ (runEngine .AlwaysFilled rowsA
        [.submit 0 .Buy 5 .GTC none, .bar 0 barA10]).notifs)) := by
  have hget : (runEngine .AlwaysFilled rowsA
      [.submit 0 .Buy 5 .GTC none, .bar 0 barA10]).orders.get? 0 =
      some (⟨0, 0, .Buy, .GTC, none, 5, 0, 5, none, some 1⟩ : Order) := by
    norm_num [runEngine, stepEngine, processBar, procEvents, procEvent, submit_order,
      cancel_order, applyFill, fillFee, initState, mkPosition, insertAssoc, lookupAssoc,
      cancelEffect, fvAdd, fvSub, fvMulQ, fvQMul, fvDivQ, Position.pending_qty,
      Position.setPending, rowsA, infoA, barA10, List.foldl, List.get?]
  exact ⟨hget, c2_order_quantity_invariant .AlwaysFilled rowsA
    [.submit 0 .Buy 5 .GTC none, .bar 0 barA10] 0 _ hget⟩

/-- **C3 (counterexample).** The claim puts `hold_mv = 120` after the
sell flip. The sell branch (`backtest.py` line 139) *subtracts*
`(q - close_qty) * px` from `hold_mv`: the cost basis is signed, and a
short of 2 at 60 is stored as `hold_mv = -120`. -/
theorem c3_hold_mv_not_120 :
    (applyFill c3pos .Sell 5 (some 60)).pos.hold_mv ≠ some 120 := by
  norm_num [applyFill, c3pos, mkPosition, infoA, fvSub, fvMulQ, fvQMul, fvDivQ, fvAdd]

/-- **C3 (amended).** Position long 3 at average cost 50
(`hold_qty = 3`, `hold_mv = 150`); a sell fill of quantity 5 at price
60 closes 3 with realized profit `(60 - 50) * 3 = 30`, and the
remaining 2 opens a short: `hold_qty = -2` and `hold_mv = -120`, the
remaining `q - close_qty` having been *subtracted* from `hold_mv` as
`(q - close_qty) * p` (the cost basis is signed: negative for shorts,
so the average cost is `hold_mv / hold_qty = 60`). -/
theorem c3_sell_flip_scenario :
    (applyFill c3pos .Sell 5 (some 60)).close_qty = 3 ∧
    (applyFill c3pos .Sell 5 (some 60)).profit = some 30 ∧
    (applyFill c3pos .Sell 5 (some 60)).pos.hold_qty = -2 ∧
    (applyFill c3pos .Sell 5 (some 60)).pos.hold_mv = some (-120) ∧
    (-120 : ℚ) / (-2) = 60 := by
  norm_num [applyFill, c3pos, mkPosition, infoA, fvSub, fvMulQ, fvQMul, fvDivQ, fvAdd]

/-- **C4.** Functional specification of `submit_order`
(`backtest.py` lines 203-228): no order when the instrument is
untracked; capacity `max_hold_qty - hold_qty - pending_qty[Buy]` for a
buy and `max_hold_qty + hold_qty - pending_qty[Sell]` for a sell; the
requested quantity clamped to that capacity; no order when the clamped
quantity is `≤ 0`; otherwise an `Order` with
`pend_qty = orig_qty = clamped quantity` appended to the order log, the
direction's pending quantity incremented by it, a fill-attempt event
enqueued, and nothing else changed. -/
theorem c4_submit_order_spec (s : EngState) (ins_id : InstrumentID) (dir : Direction)
    (qty : ℚ) (tif : TimeInForce) (lmt : Option ℚ) :
    (lookupAssoc s.positions ins_id = none →
      submit_order s ins_id dir qty tif lmt = (s, none)) ∧
    (∀ pos, lookupAssoc s.positions ins_id = some pos →
      ∀ cap, cap = (match dir with
          | .Buy => pos.max_hold_qty - pos.hold_qty - pos.pending_qty .Buy
          | .Sell => pos.max_hold_qty + pos.hold_qty - pos.pending_qty .Sell) →
        ((min qty cap ≤ 0 → submit_order s ins_id dir qty tif lmt = (s, none)) ∧
         (0 < min qty cap →
           submit_order s ins_id dir qty tif lmt =
             ({ s with
                 orders := s.orders ++ [(⟨s.orders.length, ins_id, dir, tif, lmt,
                   min qty cap, min qty cap, 0, s.cur_tm, none⟩ : Order)],
                 positions := insertAssoc s.positions ins_id
                   (pos.setPending dir (pos.pending_qty dir + min qty cap)),
                 events := s.events ++ [(⟨.fill, s.orders.length⟩ : Ev)] },
              some (⟨s.orders.length, ins_id, dir, tif, lmt, min qty cap, min qty cap, 0,
                s.cur_tm, none⟩ : Order))))) := by
  constructor
  · intro hnone
    unfold submit_order
    rw [hnone]
  · intro pos hpos cap hcap
    subst hcap
    constructor
    · intro hle
      unfold submit_order
      rw [hpos]
      dsimp only
      rw [if_pos hle]
    · intro hlt
      unfold submit_order
      rw [hpos]
      dsimp only
      rw [if_neg (not_le.mpr hlt)]

/-- Witness for C4: on the fresh one-instrument state, submitting for
the unknown instrument 1 yields no order, and a buy of 15 against cap
10 is clamped to an order with `orig_qty = pend_qty = 10`. -/
theorem c4_submit_order_spec_witness :
    submit_order (initState rowsA) 1 .Buy 5 .GTC none = (initState rowsA, none) ∧
    (submit_order (initState rowsA) 0 .Buy 15 .GTC none).2.map
      (fun o => (o.orig_qty, o.pend_qty)) = some ((10 : ℚ), (10 : ℚ)) := by
  constructor
  · exact (c4_submit_order_spec (initState rowsA) 1 .Buy 5 .GTC none).1
      (by norm_num [initState, insertAssoc, lookupAssoc, rowsA, infoA, List.foldl])
  · have h2 := ((c4_submit_order_spec (initState rowsA) 0 .Buy 15 .GTC none).2
      (mkPosition infoA 10)
      (by norm_num [initState, insertAssoc, lookupAssoc, rowsA, infoA, List.foldl])
      10 (by norm_num [mkPosition, Position.pending_qty])).2 (by norm_num)
    rw [h2]
    norm_num

/-- **C5.** After every resolution pass (a bar step), each position's
per-direction pending quantity equals the sum of `pend_qty` over the
orders of that instrument and direction — resolved orders contribute 0,
so this is the sum over the orders still awaiting resolution, and it
includes permanently orphaned ones. -/
theorem c5_pending_equals_pend_sum (algo : MatchAlgorithm)
    (rows : List (InstrumentInfo × ℚ)) (steps : List Step) (barIns : InstrumentID)
    (bar : BarData) (ins : InstrumentID) (pos : Position) (d : Direction)
    (hpos : lookupAssoc (runEngine algo rows
        (steps ++ [Step.bar barIns bar])).positions ins = some pos) :
    pos.pending_qty d =
      pendSum (runEngine algo rows (steps ++ [Step.bar barIns bar])).orders ins d :=
  (inv_run algo rows (steps ++ [Step.bar barIns bar])).psum ins pos hpos d

/-- The position left by the C5 witness run: a permanently orphaned
good-till-cancel buy of 5 still occupies `pending_qty[Buy]`. -/
def c5pos : Position := { mkPosition infoA 10 with pending_buy := 5 }

/-- Witness for C5: under `NoTrade`, after the orphaned order's only
resolution pass, `pending_qty[Buy] = 5` still equals the order-log
sum. -/
theorem c5_pending_equals_pend_sum_witness :
    lookupAssoc (runEngine .NoTrade rowsA
        ([Step.submit 0 .Buy 5 .GTC none] ++ [Step.bar 0 barA10])).positions 0 = some c5pos ∧
    c5pos.pending_qty .Buy =
      pendSum (runEngine .NoTrade rowsA
        ([Step.submit 0 .Buy 5 .GTC none] ++ [Step.bar 0 barA10])).orders 0 .Buy := by
  have hpos : lookupAssoc (runEngine .NoTrade rowsA
      ([Step.submit 0 .Buy 5 .GTC none] ++ [Step.bar 0 barA10])).positions 0 = some c5pos := by
    norm_num [runEngine, stepEngine, processBar, procEvents, procEvent, submit_order,
      cancel_order, applyFill, fillFee, initState, mkPosition, insertAssoc, lookupAssoc,
      cancelEffect, fvAdd, fvSub, fvMulQ, fvQMul, fvDivQ, Position.pending_qty,
      Position.setPending, rowsA, infoA, barA10, List.foldl, c5pos]
  exact ⟨hpos, c5_pending_equals_pend_sum .NoTrade rowsA [Step.submit 0 .Buy 5 .GTC none]
    0 barA10 0 c5pos .Buy hpos⟩

/-- **C6.** At every point during a run, a position with
`hold_qty = 0` has `hold_mv = some 0`; and this predicate is preserved
by every fill applied through the ledger (at a real — non-NaN — price,
as every fill of a run is: the bar's price is recorded before the
pass). -/
theorem c6_flat_position_zero_mv :
    (∀ (algo : MatchAlgorithm) (rows : List (InstrumentInfo × ℚ)) (steps : List Step)
       (ins : InstrumentID) (pos : Position),
       lookupAssoc (runEngine algo rows steps).positions ins = some pos →
       pos.hold_qty = 0 → pos.hold_mv = some 0) ∧
    (∀ (pos : Position) (d : Direction) (q p m : ℚ), 0 < q → pos.hold_mv = some m →
       (pos.hold_qty = 0 → pos.hold_mv = some 0) →
       ((applyFill pos d q (some p)).pos.hold_qty = 0 →
        (applyFill pos d q (some p)).pos.hold_mv = some 0)) :=
  ⟨fun algo rows steps ins pos hpos hz => (inv_run algo rows steps).hmvZero ins pos hpos hz,
   fun pos d q p m hq hm _ => applyFill_hold_zero pos d q p m hq hm⟩

/-- Witness for C6: the fresh flat position of a run, and an exact
close of the long-3 position by a sell of 3. -/
theorem c6_flat_position_zero_mv_witness :
    (mkPosition infoA 10).hold_mv = some 0 ∧
    (applyFill c3pos .Sell 3 (some 60)).pos.hold_mv = some 0 := by
  constructor
  · exact c6_flat_position_zero_mv.1 .AlwaysFilled rowsA [] 0 (mkPosition infoA 10)
      (by norm_num [runEngine, initState, insertAssoc, lookupAssoc, rowsA, infoA, List.foldl]) rfl
  · exact c6_flat_position_zero_mv.2 c3pos .Sell 3 60 150 (by norm_num)
      (by norm_num [c3pos, mkPosition])
      (fun hc => absurd hc (by norm_num [c3pos, mkPosition]))
      (by norm_num [applyFill, c3pos, mkPosition, fvSub, fvMulQ, fvQMul, fvDivQ])

/-- **C7.** `cancel_order` returns false and enqueues nothing exactly
when the order has `pend_qty = 0` or is immediate-or-cancel; otherwise
it enqueues exactly one cancel event, returns true, and changes nothing
else (`backtest.py` lines 230-234). -/
theorem c7_cancel_order_spec (s : EngState) (oid : ℕ) (o : Order)
    (hget : s.orders.get? oid = some o) :
    (((cancel_order s oid).2 = false) ↔ (o.pend_qty = 0 ∨ o.tif = .IOC)) ∧
    ((o.pend_qty = 0 ∨ o.tif = .IOC) → cancel_order s oid = (s, false)) ∧
    (¬(o.pend_qty = 0 ∨ o.tif = .IOC) →
      cancel_order s oid =
        ({ s with events := s.events ++ [({ kind := .cancel, order_id := oid } : Ev)] },
         true)) := by
  unfold cancel_order
  rw [hget]
  dsimp only
  by_cases hc : o.pend_qty = 0 ∨ o.tif = .IOC
  · rw [if_pos hc]
    exact ⟨by simp [hc], fun _ => rfl, fun hn => absurd hc hn⟩
  · rw [if_neg hc]
    exact ⟨by simp [hc], fun hy => absurd hy hc, fun _ => rfl⟩

/-- Witness for C7: cancelling a pending IOC order fails with no state
change; cancelling a pending GTC order enqueues one cancel event and
returns true. -/
theorem c7_cancel_order_spec_witness :
    cancel_order (runEngine .NoTrade rowsA [Step.submit 0 .Buy 5 .IOC none]) 0 =
      (runEngine .NoTrade rowsA [Step.submit 0 .Buy 5 .IOC none], false) ∧
    cancel_order (runEngine .NoTrade rowsA [Step.submit 0 .Buy 5 .GTC none]) 0 =
      ({ runEngine .NoTrade rowsA [Step.submit 0 .Buy 5 .GTC none] with
          events := (runEngine .NoTrade rowsA [Step.submit 0 .Buy 5 .GTC none]).events ++
            [({ kind := .cancel, order_id := 0 } : Ev)] }, true) := by
  have hg1 : (runEngine .NoTrade rowsA [Step.submit 0 .Buy 5 .IOC none]).orders.get? 0 =
      some (⟨0, 0, .Buy, .IOC, none, 5, 5, 0, none, none⟩ : Order) := by
    norm_num [runEngine, stepEngine, submit_order, initState, mkPosition, insertAssoc,
      lookupAssoc, Position.pending_qty, Position.setPending, rowsA, infoA, List.foldl,
      List.get?]
  have hg2 : (runEngine .NoTrade rowsA [Step.submit 0 .Buy 5 .GTC none]).orders.get? 0 =
      some (⟨0, 0, .Buy, .GTC, none, 5, 5, 0, none, none⟩ : Order) := by
    norm_num [runEngine, stepEngine, submit_order, initState, mkPosition, insertAssoc,
      lookupAssoc, Position.pending_qty, Position.setPending, rowsA, infoA, List.foldl,
      List.get?]
  constructor
  · exact (c7_cancel_order_spec _ 0 _ hg1).2.1 (Or.inr rfl)
  · refine (c7_cancel_order_spec _ 0 _ hg2).2.2 ?_
    intro hc
    rcases hc with hc | hc
    · norm_num at hc
    · exact absurd hc (by decide)

/-- **C8 (counterexample).** The claim says a `NoTrade` fill-attempt on
a good-till-cancel order leaves "the order's fields … unchanged". But
line 110 of `backtest.py` assigns `last_time` on the shared order
object before the algorithm branch: after its no-action resolution
pass, the order's `last_time` has changed from `None` to the bar's
time. -/
theorem c8_last_time_mutated :
    ((runEngine .NoTrade rowsA [.submit 0 .Buy 5 .GTC none, .bar 0 barA10]).orders.map
      (fun o => (o.last_time, o.pend_qty, o.orig_qty))) = [(some 1, (5 : ℚ), (5 : ℚ))] ∧
    (some 1 ≠ (none : Option ℕ)) := by
  have hni : ¬TimeInForce.GTC = TimeInForce.IOC := by decide
  refine ⟨?_, by simp⟩
  norm_num [runEngine, stepEngine, processBar, procEvents, procEvent, submit_order,
    cancel_order, applyFill, fillFee, initState, mkPosition, insertAssoc, lookupAssoc,
    cancelEffect, fvAdd, fvSub, fvMulQ, fvQMul, fvDivQ, Position.pending_qty,
    Position.setPending, rowsA, infoA, barA10, List.foldl, hni]

/-- **C8 (amended).** Under `NoTrade`, a fill-attempt event for a
good-till-cancel order with remaining pending quantity changes nothing
except the order's `last_time`, which is set to the current bar time:
its other fields (so in particular `pend_qty = orig_qty`), its
position, the trade log and the notification log are untouched, and
`pending_qty[direction]` remains occupied. A fill-attempt event for an
immediate-or-cancel order has exactly the effect of a cancel event for
the same order. -/
theorem c8_no_trade_fill_attempt (s : EngState) (barIns : InstrumentID) (oid : ℕ)
    (o : Order) (hget : s.orders.get? oid = some o) (hpend : 0 < o.pend_qty) :
    (o.tif = .GTC →
      procEvent .NoTrade barIns s ⟨.fill, oid⟩ =
        { s with orders := s.orders.set oid { o with last_time := s.cur_tm } }) ∧
    (o.tif = .IOC →
      procEvent .NoTrade barIns s ⟨.fill, oid⟩ =
        procEvent .NoTrade barIns s ⟨.cancel, oid⟩) := by
  constructor
  · intro htif
    unfold procEvent
    rw [hget]
    dsimp only
    rw [if_neg (not_le.mpr hpend)]
    cases hpos : lookupAssoc s.positions o.ins_id with
    | none => rfl
    | some pos =>
      dsimp only
      have hni : ¬o.tif = TimeInForce.IOC := by
        rw [htif]
        exact fun hh => TimeInForce.noConfusion hh
      rw [if_neg hni]
  · intro htif
    unfold procEvent
    rw [hget]
    dsimp only
    simp only [if_neg (not_le.mpr hpend)]
    cases hpos : lookupAssoc s.positions o.ins_id with
    | none => rfl
    | some pos =>
      dsimp only
      rw [if_pos htif]

/-- Witness for C8 (amended): the orphaned GTC order of a concrete
`NoTrade` run receives exactly the `last_time` write. -/
theorem c8_no_trade_fill_attempt_witness :
    procEvent .NoTrade 0 (runEngine .NoTrade rowsA [Step.submit 0 .Buy 5 .GTC none])
        ⟨.fill, 0⟩ =
      { runEngine .NoTrade rowsA [Step.submit 0 .Buy 5 .GTC none] with
        orders := (runEngine .NoTrade rowsA [Step.submit 0 .Buy 5 .GTC none]).orders.set 0
          { (⟨0, 0, .Buy, .GTC, none, 5, 5, 0, none, none⟩ : Order) with
            last_time := (runEngine .NoTrade rowsA
              [Step.submit 0 .Buy 5 .GTC none]).cur_tm } } := by
  have hget : (runEngine .NoTrade rowsA [Step.submit 0 .Buy 5 .GTC none]).orders.get? 0 =
      some (⟨0, 0, .Buy, .GTC, none, 5, 5, 0, none, none⟩ : Order) := by
    norm_num [runEngine, stepEngine, submit_order, initState, mkPosition, insertAssoc,
      lookupAssoc, Position.pending_qty, Position.setPending, rowsA, infoA, List.foldl,
      List.get?]
  exact (c8_no_trade_fill_attempt _ 0 0 _ hget (by norm_num)).1 rfl

/-- **C9 (counterexample).** A fill-attempt and a cancel event for the
same order are queued in the same pass (`submit_order` then
`cancel_order` inside one bar's callbacks). The claim says only the
earlier-queued event takes effect — but under `NoTrade` the earlier
fill-attempt on a GTC order does not resolve it, and the *later* cancel
event then fires: the order ends with `pend_qty = 0` and a cancellation
notification, not with `pend_qty = 5` as an ineffective later event
would leave it. -/
theorem c9_later_cancel_takes_effect :
    ((runEngine .NoTrade rowsA
        [.submit 0 .Buy 5 .GTC none, .cancel 0, .bar 0 barA10]).orders.map
      (fun o => o.pend_qty)) = [(0 : ℚ)] ∧
    (runEngine .NoTrade rowsA
        [.submit 0 .Buy 5 .GTC none, .cancel 0, .bar 0 barA10]).notifs =
      [Notif.cancelled 0] ∧
    ((0 : ℚ) ≠ 5) := by
  have hni : ¬TimeInForce.GTC = TimeInForce.IOC := by decide
  refine ⟨?_, ?_, by norm_num⟩ <;>
    norm_num [runEngine, stepEngine, processBar, procEvents, procEvent, submit_order,
      cancel_order, applyFill, fillFee, initState, mkPosition, insertAssoc, lookupAssoc,
      cancelEffect, fvAdd, fvSub, fvMulQ, fvQMul, fvDivQ, Position.pending_qty,
      Position.setPending, rowsA, infoA, barA10, List.foldl, hni]

/-- **C9 (amended).** Once an order's `pend_qty` is 0, every later
event referencing it is skipped with no effect at all; under
`AlwaysFilled`, when a fill-attempt and a cancel for the same (live,
tracked) order are queued in one pass, only the earlier-queued event
takes effect (under `NoTrade` a GTC fill-attempt does not resolve the
order, so a later-queued cancel still acts); and over any whole run an
order produces at most one trade or cancellation notification in total
— in particular it is never both filled and cancelled, and never
produces more than one `Trade`. -/
theorem c9_one_shot_and_exclusivity :
    (∀ (algo : MatchAlgorithm) (barIns : InstrumentID) (s : EngState) (ev : Ev) (o : Order),
       s.orders.get? ev.order_id = some o → o.pend_qty ≤ 0 →
       procEvent algo barIns s ev = s) ∧
    (∀ (barIns : InstrumentID) (s : EngState) (oid : ℕ) (o : Order) (pos : Position),
       s.orders.get? oid = some o → 0 < o.pend_qty →
       lookupAssoc s.positions o.ins_id = some pos →
       procEvents .AlwaysFilled barIns s [⟨.fill, oid⟩, ⟨.cancel, oid⟩] =
         procEvents .AlwaysFilled barIns s [⟨.fill, oid⟩]) ∧
    (∀ (algo : MatchAlgorithm) (rows : List (InstrumentInfo × ℚ)) (steps : List Step)
       (i : ℕ),
       tradeCount (runEngine algo rows steps) i +
         cancelCount (runEngine algo rows steps) i ≤ 1) := by
  refine ⟨procEvent_skip, ?_, fun algo rows steps i => (inv_run algo rows steps).cnt i⟩
  intro barIns s oid o pos hget hpend hpos
  have h1 : (procEvent .AlwaysFilled barIns s ⟨.fill, oid⟩).orders.get? oid =
      some ({ o with last_time := s.cur_tm, exec_qty := o.pend_qty, pend_qty := 0 }) := by
    unfold procEvent
    rw [hget]
    dsimp only
    rw [if_neg (not_le.mpr hpend), hpos]
    dsimp only
    exact get?_set_self _ _ _ (get?_lt_length _ _ _ hget)
  show procEvent .AlwaysFilled barIns (procEvent .AlwaysFilled barIns s ⟨.fill, oid⟩)
      ⟨.cancel, oid⟩ = procEvent .AlwaysFilled barIns s ⟨.fill, oid⟩
  exact procEvent_skip .AlwaysFilled barIns _ ⟨.cancel, oid⟩ _ h1 (le_refl 0)

/-- Witness for C9 (amended): the three parts at concrete inputs — a
skipped event on an already-filled order, a same-pass fill+cancel pair
equal to the fill alone, and the at-most-one-notification bound on the
counterexample run. -/
theorem c9_one_shot_and_exclusivity_witness :
    (procEvent .AlwaysFilled 0
        (runEngine .AlwaysFilled rowsA [Step.submit 0 .Buy 5 .GTC none, Step.bar 0 barA10])
        ⟨.fill, 0⟩ =
      runEngine .AlwaysFilled rowsA [Step.submit 0 .Buy 5 .GTC none, Step.bar 0 barA10]) ∧
    (procEvents .AlwaysFilled 0
        (runEngine .AlwaysFilled rowsA [Step.submit 0 .Buy 5 .GTC none])
        [⟨.fill, 0⟩, ⟨.cancel, 0⟩] =
      procEvents .AlwaysFilled 0
        (runEngine .AlwaysFilled rowsA [Step.submit 0 .Buy 5 .GTC none]) [⟨.fill, 0⟩]) ∧
    (tradeCount (runEngine .NoTrade rowsA
        [.submit 0 .Buy 5 .GTC none, .cancel 0, .bar 0 barA10]) 0 +
      cancelCount (runEngine .NoTrade rowsA
        [.submit 0 .Buy 5 .GTC none, .cancel 0, .bar 0 barA10]) 0 ≤ 1) := by
  refine ⟨?_, ?_, c9_one_shot_and_exclusivity.2.2 .NoTrade rowsA
    [.submit 0 .Buy 5 .GTC none, .cancel 0, .bar 0 barA10] 0⟩
  · have hget : (runEngine .AlwaysFilled rowsA
        [Step.submit 0 .Buy 5 .GTC none, Step.bar 0 barA10]).orders.get? 0 =
        some (⟨0, 0, .Buy, .GTC, none, 5, 0, 5, none, some 1⟩ : Order) := by
      norm_num [runEngine, stepEngine, processBar, procEvents, procEvent, submit_order,
        cancel_order, applyFill, fillFee, initState, mkPosition, insertAssoc, lookupAssoc,
        cancelEffect, fvAdd, fvSub, fvMulQ, fvQMul, fvDivQ, Position.pending_qty,
        Position.setPending, rowsA, infoA, barA10, List.foldl, List.get?]
    exact c9_one_shot_and_exclusivity.1 .AlwaysFilled 0 _ ⟨.fill, 0⟩ _ hget (by norm_num)
  · have hget : (runEngine .AlwaysFilled rowsA
        [Step.submit 0 .Buy 5 .GTC none]).orders.get? 0 =
        some (⟨0, 0, .Buy, .GTC, none, 5, 5, 0, none, none⟩ : Order) := by
      norm_num [runEngine, stepEngine, submit_order, initState, mkPosition, insertAssoc,
        lookupAssoc, Position.pending_qty, Position.setPending, rowsA, infoA, List.foldl,
        List.get?]
    have hpos : lookupAssoc (runEngine .AlwaysFilled rowsA
        [Step.submit 0 .Buy 5 .GTC none]).positions 0 =
        some ({ mkPosition infoA 10 with pending_buy := 5 }) := by
      norm_num [runEngine, stepEngine, submit_order, initState, mkPosition, insertAssoc,
        lookupAssoc, Position.pending_qty, Position.setPending, rowsA, infoA, List.foldl]
    exact c9_one_shot_and_exclusivity.2.1 0 _ 0 _ _ hget (by norm_num) hpos

/-- Replace one order's time-in-force in the arena, leaving everything
else of the state unchanged. -/
def setTif (s : EngState) (oid : ℕ) (tf : TimeInForce) : EngState :=
  { s with orders := updateAt s.orders oid (fun o => { o with tif := tf }) }

/-- **C10.** Under `AlwaysFilled`, resolving a fill-attempt event never
reads the order's time-in-force: changing one order's `tif` commutes
with the resolution step. Consequently two runs identical except for
that order's `tif` produce the same fill, the same trade fields, the
same ledger updates and the same notifications — the final states
differ only in the stored `tif` field itself (which the order report
shares). -/
theorem c10_fill_ignores_tif (barIns : InstrumentID) (s : EngState) (oid : ℕ)
    (tf : TimeInForce) :
    procEvent .AlwaysFilled barIns (setTif s oid tf) ⟨.fill, oid⟩ =
      setTif (procEvent .AlwaysFilled barIns s ⟨.fill, oid⟩) oid tf := by
  unfold setTif
  have hg : (updateAt s.orders oid (fun o2 => { o2 with tif := tf })).get? oid =
      (s.orders.get? oid).map (fun o2 => { o2 with tif := tf }) := by
    rw [updateAt_get?, if_pos rfl]
  unfold procEvent
  dsimp only
  rw [hg]
  cases hget : s.orders.get? oid with
  | none =>
    dsimp only [Option.map]
  | some o =>
    dsimp only [Option.map]
    by_cases hpend : o.pend_qty ≤ 0
    · simp only [if_pos hpend]
    · simp only [if_neg hpend]
      cases hpos : lookupAssoc s.positions o.ins_id with
      | none =>
        dsimp only
        rw [set_updateAt_same, updateAt_set_same]
      | some pos =>
        dsimp only
        rw [set_updateAt_same, updateAt_set_same]

end Mlft
